import Mathlib

/-!
Shallow embedding of the column-construction core of the table engine:
the `createColumn` routine (id and accessor resolution, the missing-id
error path, feature hook invocation) together with the derived column
collections `getFlatColumns` and `getLeafColumns` and the memoization
contract of the memo utility.
-/

/-- A JavaScript value, as far as the accessor logic observes it. -/
inductive JSValue where
  | undefined
  | null
  | bool (b : Bool)
  | num (n : Int)
  | str (s : String)
  | obj (fields : List (String × JSValue))

/-- Result of a JavaScript evaluation: a produced value, or a raised error. -/
inductive JSResult where
  | val (v : JSValue)
  | thrown

/-- Plain property access on a value: raises on nullish receivers, looks up
object fields (absent fields give undefined), and yields undefined on the
other primitives. -/
def getProp : JSValue → String → JSResult
  | .undefined, _ => .thrown
  | .null, _ => .thrown
  | .obj fs, k => .val ((fs.lookup k).getD .undefined)
  | _, _ => .val .undefined

/-- Optional-chaining access on a value: a nullish receiver short-circuits to
undefined instead of raising. -/
def optChainGet (v : JSValue) (k : String) : JSValue :=
  match v with
  | .undefined => .undefined
  | .null => .undefined
  | .obj fs => (fs.lookup k).getD .undefined
  | _ => .undefined

/-- Split of a character list at every dot, matching the JavaScript split
method with a one-character separator. -/
def splitDotAux : List Char → List Char → List (List Char)
  | [], acc => [acc.reverse]
  | c :: cs, acc =>
    if c = '.' then acc.reverse :: splitDotAux cs [] else splitDotAux cs (c :: acc)

/-- The JavaScript split of a string at dots. -/
def jsSplitDot (s : String) : List String := (splitDotAux s.data []).map String.mk

/-- Replacement of only the first dot of a character list by an underscore. -/
def replaceFirstDotAux : List Char → List Char
  | [] => []
  | c :: cs => if c = '.' then '_' :: cs else c :: replaceFirstDotAux cs

/-- The JavaScript replace of the string pattern dot by underscore: only the
first occurrence is replaced. -/
def jsReplaceFirstDot (s : String) : String := String.mk (replaceFirstDotAux s.data)

/-- Whether a string contains a dot, as the includes test of the source. -/
def containsDot (s : String) : Bool := s.data.contains '.'

/-- The deep accessor built for a dotted accessor key: it walks the split path
segment by segment with optional-chaining access, so an intermediate nullish
value yields undefined and never raises. -/
def deepAccessorFn (key : String) : JSValue → JSResult :=
  fun originalRow => .val ((jsSplitDot key).foldl optChainGet originalRow)

/-- The single-property accessor built for a dot-free accessor key: plain
property access on the row. -/
def plainAccessorFn (key : String) : JSValue → JSResult :=
  fun originalRow => getProp originalRow key

/-- What the header field of a column definition holds: absent, a plain
string, or a non-string renderable. -/
inductive HeaderVal where
  | hnone
  | hstr (s : String)
  | hrenderable

/-- The fields of a column definition read by createColumn; none models an
absent or undefined field. -/
structure ColumnDefRec where
  id : Option String
  accessorKey : Option String
  accessorFn : Option (JSValue → JSResult)
  header : HeaderVal

/-- Object-spread merge of one optional field: the second operand is the
user definition and wins when present. -/
def mergeField {α : Type} : Option α → Option α → Option α
  | _, some b => some b
  | a, none => a

/-- Object-spread merge of the header field: the user header wins when
present. -/
def mergeHeader : HeaderVal → HeaderVal → HeaderVal
  | a, .hnone => a
  | _, b => b

/-- The resolved column definition: the default column definition of the table
spread under the user definition, so explicit user fields win. -/
def resolveDef (defaultColumn columnDef : ColumnDefRec) : ColumnDefRec :=
  ⟨mergeField defaultColumn.id columnDef.id,
   mergeField defaultColumn.accessorKey columnDef.accessorKey,
   mergeField defaultColumn.accessorFn columnDef.accessorFn,
   mergeHeader defaultColumn.header columnDef.header⟩

/-- The id resolution chain of createColumn: the explicit id if present (the
nullish coalescing keeps an empty string), else the accessor key with its
first dot replaced by an underscore when the key is truthy, else the header
when it is a plain string. -/
def resolveId (r : ColumnDefRec) : Option String :=
  match r.id with
  | some s => some s
  | none =>
    match r.accessorKey with
    | some k =>
      if k = "" then
        match r.header with
        | .hstr s => some s
        | _ => none
      else some (jsReplaceFirstDot k)
    | none =>
      match r.header with
      | .hstr s => some s
      | _ => none

/-- The accessor resolution of createColumn: an explicit accessor function is
used verbatim; else a truthy accessor key builds the deep accessor when the
key is dotted and the single-property accessor otherwise. -/
def resolveAccessorFn (r : ColumnDefRec) : Option (JSValue → JSResult) :=
  match r.accessorFn with
  | some f => some f
  | none =>
    match r.accessorKey with
    | some k =>
      if k = "" then none
      else if containsDot k then some (deepAccessorFn k)
      else some (plainAccessorFn k)
    | none => none

/-- A column tree node as assembled by the caller of createColumn: the node id
and the child columns appended after construction. -/
inductive ColumnTree where
  | node (id : String) (children : List ColumnTree)

/-- The slice of the table object consumed by createColumn: the default column
definition, the registered features in registration order (each contributing a
hook that rewrites the open extension fields of a new node), and the leaf
column ordering function. -/
structure TableModel where
  defaultColumnDef : ColumnDefRec
  features : List (List (String × JSValue) → List (String × JSValue))
  orderColumnsFn : List ColumnTree → List ColumnTree

/-- The constructed column node: resolved id, resolved accessor, depth, and
the open extension fields attached by the feature hooks. Children are
populated later by the caller and are modelled by ColumnTree. -/
structure CoreColumn where
  id : String
  accessorFn : Option (JSValue → JSResult)
  depth : Nat
  extra : List (String × JSValue)

/-- The message of the raised missing-id error: in non-production builds a
diagnostic text that depends on whether an accessor function was supplied, in
production an empty message. -/
def missingIdMessage (prod : Bool) (r : ColumnDefRec) : String :=
  if prod then ""
  else
    match r.accessorFn with
    | some _ => "Columns require an id when using an accessorFn"
    | none => "Columns require an id when using a non-string header"

/-- The createColumn routine: merge the default definition under the user
definition, resolve the id and the accessor, fail when the id is nullish or
empty in every build mode, then build the node and run every feature hook in
registration order over its extension fields. -/
def createColumn (prod : Bool) (table : TableModel) (columnDef : ColumnDefRec)
    (depth : Nat) : Except String CoreColumn :=
  let resolvedColumnDef := resolveDef table.defaultColumnDef columnDef
  let accessorFn := resolveAccessorFn resolvedColumnDef
  match resolveId resolvedColumnDef with
  | none => .error (missingIdMessage prod resolvedColumnDef)
  | some s =>
    if s = "" then .error (missingIdMessage prod resolvedColumnDef)
    else
      .ok ⟨s, accessorFn, depth,
           table.features.foldl (fun fields hook => hook fields) []⟩

mutual
/-- The flat columns of a node: the node itself followed by the flattened flat
columns of each child in order. -/
def getFlatColumns : ColumnTree → List ColumnTree
  | .node i cs => .node i cs :: flatConcat cs
/-- Concatenation of the flat columns of a list of nodes. -/
def flatConcat : List ColumnTree → List ColumnTree
  | [] => []
  | c :: cs => getFlatColumns c ++ flatConcat cs
end

mutual
/-- The leaf columns of a node: the node itself when it has no children, else
the ordering function applied to the concatenated leaf columns of the
children. -/
def getLeafColumns (ord : List ColumnTree → List ColumnTree) :
    ColumnTree → List ColumnTree
  | .node i [] => [.node i []]
  | .node _ (c :: cs) => ord (getLeafColumns ord c ++ leafConcat ord cs)
/-- Concatenation of the leaf columns of a list of nodes. -/
def leafConcat (ord : List ColumnTree → List ColumnTree) :
    List ColumnTree → List ColumnTree
  | [] => []
  | c :: cs => getLeafColumns ord c ++ leafConcat ord cs
end

/-- Modelled from the spec: the memo utility imported from the utils module is
not part of the excerpt. Per the memoization contract it caches the last
computed result keyed by the dependency inputs. -/
structure MemoCache (δ β : Type) where
  entry : Option (δ × β)

/-- Modelled from the spec: one call of a memoized accessor. When the
dependency key equals the cached key the cached result is returned without
recomputation; otherwise the compute function runs and the cache is updated.
Returns the result, the cache after the call, and whether recomputation
happened. -/
def memoCall {δ β : Type} (depEq : δ → δ → Bool) (compute : δ → β) (dep : δ)
    (st : MemoCache δ β) : β × MemoCache δ β × Bool :=
  match st.entry with
  | some (d, r) =>
    if depEq d dep then (r, st, false)
    else
      let r2 := compute dep
      (r2, ⟨some (dep, r2)⟩, true)
  | none =>
    let r2 := compute dep
    (r2, ⟨some (dep, r2)⟩, true)

/-- The ordering-function type consumed by getLeafColumns. -/
abbrev OrdFn := List ColumnTree → List ColumnTree

/-- An empty column definition with every field absent. -/
def emptyDef : ColumnDefRec := ⟨none, none, none, .hnone⟩

/-- A table with an empty default definition, no features and the identity
ordering function. -/
def tbl0 : TableModel := ⟨emptyDef, [], fun l => l⟩

/-- A concrete accessor function used as a fixture. -/
def f0 : JSValue → JSResult := fun _ => .val (.num 42)

/-- Definition with a doubly dotted accessor key only. -/
def dABC : ColumnDefRec := ⟨none, some "a.b.c", none, .hnone⟩

/-- Definition with a dotted accessor key only. -/
def dAB : ColumnDefRec := ⟨none, some "a.b", none, .hnone⟩

/-- Definition with only an accessor function and a non-string header. -/
def dFnOnly : ColumnDefRec := ⟨none, none, some f0, .hrenderable⟩

/-- Definition with an accessor function and an accessor key, no explicit id
and a non-string header. -/
def dFnKey : ColumnDefRec := ⟨none, some "a.b", some f0, .hrenderable⟩

/-- Definition with an accessor function and an explicit id. -/
def dFnId : ColumnDefRec := ⟨some "x", none, some f0, .hnone⟩

/-- Definition with an explicit empty id next to an accessor key and a string
header. -/
def dEmptyId : ColumnDefRec := ⟨some "", some "a.b", none, .hstr "H"⟩

/-- Definition with only an explicit id. -/
def dId0 : ColumnDefRec := ⟨some "col", none, none, .hnone⟩

/-- Row holding a nested object with field b equal to five. -/
def rowAB : JSValue := .obj [("a", .obj [("b", .num 5)])]

/-- Row holding a null field a. -/
def rowANull : JSValue := .obj [("a", .null)]

/-- Replacement of the first dot sends only the empty list to the empty
list. -/
theorem replaceFirstDotAux_eq_nil : ∀ l : List Char, replaceFirstDotAux l = [] → l = []
  | [], _ => rfl
  | c :: cs, h => by
    by_cases hc : c = '.' <;> simp [replaceFirstDotAux, hc] at h

/-- Replacement of the first dot of a nonempty string is nonempty. -/
theorem jsReplaceFirstDot_ne_empty {k : String} (h : ¬ k = "") :
    ¬ jsReplaceFirstDot k = "" := by
  intro he
  apply h
  have hd : replaceFirstDotAux k.data = [] := by
    have h2 := congrArg String.data he
    simpa [jsReplaceFirstDot] using h2
  have h3 : k.data = [] := replaceFirstDotAux_eq_nil _ hd
  cases k
  simp_all

/-- A string containing a dot is nonempty. -/
theorem containsDot_ne_empty {k : String} (h : containsDot k = true) : ¬ k = "" := by
  intro he
  subst he
  exact absurd h (by decide)

/-- C1: for a definition whose resolved id is absent and whose accessor key
contains a dot, the constructed node id is the accessor key with only the
first dot replaced by an underscore; the key a.b gives a_b and the key a.b.c
gives a_b.c with the later dot preserved. -/
theorem createColumn_dotted_key_first_dot_only :
    (∀ (prod : Bool) (tbl : TableModel) (d : ColumnDefRec) (k : String),
        (resolveDef tbl.defaultColumnDef d).id = none →
        (resolveDef tbl.defaultColumnDef d).accessorKey = some k →
        containsDot k = true →
        ∃ c : CoreColumn, createColumn prod tbl d 0 = Except.ok c ∧
          c.id = jsReplaceFirstDot k) ∧
    jsReplaceFirstDot "a.b" = "a_b" ∧ jsReplaceFirstDot "a.b.c" = "a_b.c" := by
  refine ⟨?_, rfl, rfl⟩
  intro prod tbl d k hid hkey hdot
  have hk : ¬ k = "" := containsDot_ne_empty hdot
  have hres : resolveId (resolveDef tbl.defaultColumnDef d) =
      some (jsReplaceFirstDot k) := by
    simp [resolveId, hid, hkey, hk]
  refine ⟨⟨jsReplaceFirstDot k,
    resolveAccessorFn (resolveDef tbl.defaultColumnDef d), 0,
    tbl.features.foldl (fun fields hook => hook fields) []⟩, ?_, rfl⟩
  simp [createColumn, hres, jsReplaceFirstDot_ne_empty hk]

/-- C1 witness at the concrete key a.b.c. -/
theorem createColumn_dotted_key_first_dot_only_witness :
    ∃ c : CoreColumn, createColumn false tbl0 dABC 0 = Except.ok c ∧
      c.id = jsReplaceFirstDot "a.b.c" :=
  createColumn_dotted_key_first_dot_only.1 false tbl0 dABC "a.b.c" rfl rfl rfl

/-- C2: when no id is resolvable (no explicit id, no accessor key, no string
header) createColumn returns the missing-id error synchronously in every
build mode, with only the diagnostic message depending on the mode. -/
theorem createColumn_missing_id_fails (tbl : TableModel) (d : ColumnDefRec)
    (hid : (resolveDef tbl.defaultColumnDef d).id = none)
    (hkey : (resolveDef tbl.defaultColumnDef d).accessorKey = none)
    (hheader : ∀ s, ¬ (resolveDef tbl.defaultColumnDef d).header = HeaderVal.hstr s) :
    ∀ prod : Bool, createColumn prod tbl d 0 =
      Except.error (missingIdMessage prod (resolveDef tbl.defaultColumnDef d)) := by
  intro prod
  have hres : resolveId (resolveDef tbl.defaultColumnDef d) = none := by
    cases hh : (resolveDef tbl.defaultColumnDef d).header with
    | hnone => simp [resolveId, hid, hkey, hh]
    | hstr s => exact absurd hh (hheader s)
    | hrenderable => simp [resolveId, hid, hkey, hh]
  simp [createColumn, hres]

/-- C2 witness: a definition with only an accessor function and a non-string
header fails in production mode. -/
theorem createColumn_missing_id_fails_witness :
    createColumn true tbl0 dFnOnly 0 =
      Except.error (missingIdMessage true (resolveDef tbl0.defaultColumnDef dFnOnly)) :=
  createColumn_missing_id_fails tbl0 dFnOnly rfl rfl
    (by intro s h; simp [resolveDef, tbl0, emptyDef, dFnOnly, mergeHeader] at h) true

/-- C3 counterexample: a definition with both an accessor function and an
accessor key, no explicit id and a non-string header constructs successfully
and its id is supplied by the accessor key, contradicting the claim that the
id can only come from the explicit id or a string header when an accessor
function is present. -/
theorem createColumn_accessorFn_key_supplies_id :
    ∃ c : CoreColumn, createColumn false tbl0 dFnKey 0 = Except.ok c ∧
      c.id = "a_b" ∧ c.accessorFn = some f0 := by
  refine ⟨⟨"a_b", some f0, 0, []⟩, ?_, rfl, rfl⟩
  rfl

/-- C3 amended: when an accessor function is present it is used verbatim as
the resolved accessor of the node, and the id resolution chain is independent
of the accessor function, so an accessor key still supplies the id with an
accessor function present. -/
theorem createColumn_accessorFn_verbatim :
    (∀ (prod : Bool) (tbl : TableModel) (d : ColumnDefRec) (f : JSValue → JSResult),
        (resolveDef tbl.defaultColumnDef d).accessorFn = some f →
        ∀ c : CoreColumn, createColumn prod tbl d 0 = Except.ok c →
          c.accessorFn = some f) ∧
    (∀ (r : ColumnDefRec) (g : Option (JSValue → JSResult)),
        resolveId ⟨r.id, r.accessorKey, g, r.header⟩ = resolveId r) := by
  constructor
  · intro prod tbl d f hf c hc
    simp only [createColumn] at hc
    cases hres : resolveId (resolveDef tbl.defaultColumnDef d) with
    | none =>
      rw [hres] at hc
      exact Except.noConfusion hc
    | some s =>
      rw [hres] at hc
      by_cases hs : s = ""
      · simp [hs] at hc
      · simp [hs] at hc
        cases hc
        simp [resolveAccessorFn, hf]
  · intro r g
    rfl

/-- C3 amended witness: a concrete node built from a definition with an
explicit id and the fixture accessor function carries that function. -/
theorem createColumn_accessorFn_verbatim_witness :
    CoreColumn.accessorFn ⟨"x", some f0, 0, []⟩ = some f0 :=
  createColumn_accessorFn_verbatim.1 false tbl0 dFnId f0 rfl ⟨"x", some f0, 0, []⟩ rfl

/-- C4: an explicit nonempty id is used exactly as the node id, winning over
any key-derived or header-derived id; the overall resolution priority is the
explicit id, then the accessor key with its first dot replaced, then the
header when it is a plain string. -/
theorem createColumn_id_priority :
    (∀ (prod : Bool) (tbl : TableModel) (d : ColumnDefRec) (s : String),
        (resolveDef tbl.defaultColumnDef d).id = some s → ¬ s = "" →
        ∃ c : CoreColumn, createColumn prod tbl d 0 = Except.ok c ∧ c.id = s) ∧
    (∀ (r : ColumnDefRec) (k : String),
        r.id = none → r.accessorKey = some k → ¬ k = "" →
        resolveId r = some (jsReplaceFirstDot k)) ∧
    (∀ (r : ColumnDefRec) (h : String),
        r.id = none → (r.accessorKey = none ∨ r.accessorKey = some "") →
        r.header = HeaderVal.hstr h →
        resolveId r = some h) := by
  refine ⟨?_, ?_, ?_⟩
  · intro prod tbl d s hid hs
    have hres : resolveId (resolveDef tbl.defaultColumnDef d) = some s := by
      simp [resolveId, hid]
    refine ⟨⟨s, resolveAccessorFn (resolveDef tbl.defaultColumnDef d), 0,
      tbl.features.foldl (fun fields hook => hook fields) []⟩, ?_, rfl⟩
    simp [createColumn, hres, hs]
  · intro r k hid hkey hk
    simp [resolveId, hid, hkey, hk]
  · intro r h hid hkey hh
    cases hkey with
    | inl h1 => simp [resolveId, hid, h1, hh]
    | inr h2 => simp [resolveId, hid, h2, hh]

/-- C4 witness at a definition carrying only the explicit id col. -/
theorem createColumn_id_priority_witness :
    ∃ c : CoreColumn, createColumn false tbl0 dId0 0 = Except.ok c ∧ c.id = "col" :=
  createColumn_id_priority.1 false tbl0 dId0 "col" rfl (by decide)

/-- C5: the accessor built for the dotted key walks the row with nullish-safe
access and never raises; applied to the row with nested field value five it
returns five, applied to the row with a null intermediate it returns
undefined. -/
theorem createColumn_deep_accessor_nullish_safe :
    (∃ c : CoreColumn, createColumn false tbl0 dAB 0 = Except.ok c ∧
      ∃ f, c.accessorFn = some f ∧
        f rowAB = JSResult.val (JSValue.num 5) ∧
        f rowANull = JSResult.val JSValue.undefined) ∧
    (∀ (key : String) (row : JSValue), ∃ v, deepAccessorFn key row = JSResult.val v) := by
  constructor
  · exact ⟨⟨"a_b", some (deepAccessorFn "a.b"), 0, []⟩, rfl,
      deepAccessorFn "a.b", rfl, rfl, rfl⟩
  · intro key row
    exact ⟨(jsSplitDot key).foldl optChainGet row, rfl⟩

/-- Concatenated flat columns of a list of nodes equal the flat-map of the
flat columns over the list. -/
theorem flatConcat_eq_flatMap (l : List ColumnTree) :
    flatConcat l = l.flatMap getFlatColumns := by
  induction l with
  | nil => simp [flatConcat]
  | cons c cs ih => simp [flatConcat, ih]

/-- Concatenated leaf columns of a list of nodes equal the flat-map of the
leaf columns over the list. -/
theorem leafConcat_eq_flatMap (ord : OrdFn) (l : List ColumnTree) :
    leafConcat ord l = l.flatMap (getLeafColumns ord) := by
  induction l with
  | nil => simp [leafConcat]
  | cons c cs ih => simp [leafConcat, ih]

/-- C6: the flat columns of a node are the node itself followed by the
flattened flat columns of each child in order; the node is always the first
element, and a parent with two leaf children flattens to the parent, the
first child, then the second child. -/
theorem getFlatColumns_preorder :
    (∀ (i : String) (cs : List ColumnTree),
        getFlatColumns (ColumnTree.node i cs) =
          ColumnTree.node i cs :: cs.flatMap getFlatColumns) ∧
    (∀ (i : String) (cs : List ColumnTree),
        (getFlatColumns (ColumnTree.node i cs)).head? = some (ColumnTree.node i cs)) ∧
    (∀ (p c1 c2 : String),
        getFlatColumns
            (ColumnTree.node p [ColumnTree.node c1 [], ColumnTree.node c2 []]) =
          [ColumnTree.node p [ColumnTree.node c1 [], ColumnTree.node c2 []],
           ColumnTree.node c1 [], ColumnTree.node c2 []]) := by
  refine ⟨?_, ?_, ?_⟩
  · intro i cs
    rw [getFlatColumns, flatConcat_eq_flatMap]
  · intro i cs
    rw [getFlatColumns]
    rfl
  · intro p c1 c2
    rfl

/-- C7: the leaf columns of a leaf node are the node itself; the leaf columns
of a group node are the ordering function applied to the concatenation of the
leaf columns of the children. -/
theorem getLeafColumns_group_and_leaf :
    (∀ (ord : OrdFn) (i : String),
        getLeafColumns ord (ColumnTree.node i []) = [ColumnTree.node i []]) ∧
    (∀ (ord : OrdFn) (i : String) (cs : List ColumnTree),
        ¬ cs = [] →
        getLeafColumns ord (ColumnTree.node i cs) =
          ord (cs.flatMap (getLeafColumns ord))) := by
  constructor
  · intro ord i
    rfl
  · intro ord i cs h
    cases cs with
    | nil => exact absurd rfl h
    | cons c cs2 =>
      rw [getLeafColumns, leafConcat_eq_flatMap]
      simp

/-- C7 witness at a group node with one leaf child and the identity ordering
function. -/
theorem getLeafColumns_group_and_leaf_witness :
    getLeafColumns (fun l => l) (ColumnTree.node "p" [ColumnTree.node "c" []]) =
      (fun l : List ColumnTree => l)
        ([ColumnTree.node "c" []].flatMap (getLeafColumns (fun l => l))) :=
  getLeafColumns_group_and_leaf.2 (fun l => l) "p" [ColumnTree.node "c" []] (by simp)

/-- C8: a memoized accessor call with an unchanged dependency key returns the
cached result, leaves the cache unchanged and does not recompute; for the
flat columns the key is the constant sentinel list, for the leaf columns it
is the table ordering function. -/
theorem memo_repeated_call_stable :
    (∀ t : ColumnTree,
        memoCall (fun a b : List Bool => a == b) (fun _ => getFlatColumns t)
            [true] ⟨none⟩ =
          (getFlatColumns t, ⟨some ([true], getFlatColumns t)⟩, true) ∧
        memoCall (fun a b : List Bool => a == b) (fun _ => getFlatColumns t)
            [true] ⟨some ([true], getFlatColumns t)⟩ =
          (getFlatColumns t, ⟨some ([true], getFlatColumns t)⟩, false)) ∧
    (∀ (fnEq : OrdFn → OrdFn → Bool) (ord : OrdFn) (t : ColumnTree),
        fnEq ord ord = true →
        memoCall fnEq (fun o => getLeafColumns o t) ord
            ⟨some (ord, getLeafColumns ord t)⟩ =
          (getLeafColumns ord t, ⟨some (ord, getLeafColumns ord t)⟩, false)) := by
  constructor
  · intro t
    exact ⟨rfl, rfl⟩
  · intro fnEq ord t h
    simp [memoCall, h]

/-- C8 witness at a one-node tree, the identity ordering function and an
equality test that accepts it. -/
theorem memo_repeated_call_stable_witness :
    memoCall (fun _ _ => true)
        (fun o => getLeafColumns o (ColumnTree.node "x" [])) (fun l => l)
        ⟨some (fun l => l, getLeafColumns (fun l => l) (ColumnTree.node "x" []))⟩ =
      (getLeafColumns (fun l => l) (ColumnTree.node "x" []),
       ⟨some (fun l => l, getLeafColumns (fun l => l) (ColumnTree.node "x" []))⟩,
       false) :=
  memo_repeated_call_stable.2 (fun _ _ => true) (fun l => l)
    (ColumnTree.node "x" []) rfl

/-- A string tag for a natural number. -/
def natTag (n : Nat) : String := toString n

/-- A feature hook that appends its own tagged number to the extension
fields. -/
def tagHook (n : Nat) : List (String × JSValue) → List (String × JSValue) :=
  fun fields => fields ++ [(natTag n, JSValue.num n)]

/-- A feature hook that sets one field of the extension fields, replacing an
existing entry of the same key and appending otherwise. -/
def jsSetField (k : String) (v : JSValue) :
    List (String × JSValue) → List (String × JSValue)
  | [] => [(k, v)]
  | (k2, v2) :: rest =>
    if k2 = k then (k, v) :: rest else (k2, v2) :: jsSetField k v rest

/-- Folding the tag hooks of a number list appends exactly one tagged entry
per number, in list order. -/
theorem foldl_tagHook (l : List Nat) (e : List (String × JSValue)) :
    (l.map tagHook).foldl (fun fields hook => hook fields) e =
      e ++ l.map (fun n => (natTag n, JSValue.num n)) := by
  induction l generalizing e with
  | nil => simp
  | cons n l2 ih => simp [tagHook, ih]

/-- C9: every registered feature hook runs exactly once and in registration
order on the new node, so when two hooks set the same extension field the
value of the later registered hook wins. -/
theorem createColumn_feature_hooks_order :
    (∀ l : List Nat,
        ∃ c : CoreColumn,
          createColumn false ⟨emptyDef, l.map tagHook, fun x => x⟩ dId0 0 =
            Except.ok c ∧
          c.extra = l.map (fun n => (natTag n, JSValue.num n))) ∧
    (∀ (k : String) (v1 v2 : JSValue),
        ∃ c : CoreColumn,
          createColumn false
              ⟨emptyDef, [jsSetField k v1, jsSetField k v2], fun x => x⟩ dId0 0 =
            Except.ok c ∧
          c.extra.lookup k = some v2) := by
  constructor
  · intro l
    refine ⟨_, rfl, ?_⟩
    simpa using foldl_tagHook l []
  · intro k v1 v2
    refine ⟨⟨"col", none, 0, [(k, v2)]⟩, ?_, ?_⟩
    · simp [createColumn, resolveDef, resolveId, resolveAccessorFn, emptyDef,
        dId0, mergeField, mergeHeader, jsSetField]
    · simp [List.lookup]

/-- C10: an explicit empty id survives the nullish chain and is rejected by
the falsiness check, so construction fails in every build mode even when an
accessor key or a string header is present, and a constructed node never has
an empty id. -/
theorem createColumn_empty_id_rejected :
    (∀ (prod : Bool) (tbl : TableModel) (d : ColumnDefRec),
        (resolveDef tbl.defaultColumnDef d).id = some "" →
        createColumn prod tbl d 0 =
          Except.error (missingIdMessage prod (resolveDef tbl.defaultColumnDef d))) ∧
    (∀ (prod : Bool) (tbl : TableModel) (d : ColumnDefRec) (c : CoreColumn),
        createColumn prod tbl d 0 = Except.ok c → ¬ c.id = "") := by
  constructor
  · intro prod tbl d hid
    have hres : resolveId (resolveDef tbl.defaultColumnDef d) = some "" := by
      simp [resolveId, hid]
    simp [createColumn, hres]
  · intro prod tbl d c hc
    simp only [createColumn] at hc
    cases hres : resolveId (resolveDef tbl.defaultColumnDef d) with
    | none =>
      rw [hres] at hc
      exact Except.noConfusion hc
    | some s =>
      rw [hres] at hc
      by_cases hs : s = ""
      · simp [hs] at hc
      · simp [hs] at hc
        cases hc
        exact hs

/-- C10 witness: a definition with an explicit empty id next to an accessor
key and a string header still fails. -/
theorem createColumn_empty_id_rejected_witness :
    createColumn false tbl0 dEmptyId 0 =
      Except.error (missingIdMessage false (resolveDef tbl0.defaultColumnDef dEmptyId)) :=
  createColumn_empty_id_rejected.1 false tbl0 dEmptyId rfl
